import Mathlib

/-!
Verification of `blaze/compute/core.py`: a shallow embedding of the
backend-agnostic expression-evaluation engine (the two tree-walk
strategies `top_to_bottom` and `bottom_up`, the dispatch-driven
`compute_up` fallback rules, the evaluation pipeline `compute`, the
scope binder `swap_resources_into_scope`, the single-source adapter,
and the elementwise compiler `columnwise_funcstr`).

The external multiple-dispatch registry (backend-registered rules,
the hook implementations `pre_compute` / `optimize` / `post_compute`,
and the fused `compute_down` rules) is modelled as an explicit
`Rules` parameter; the defaults registered in `core.py` itself are
part of the embedded definitions.  Recursion through the untyped
mutually recursive Python call graph is made total with an explicit
fuel parameter; exceptions are modelled with `Except`.
-/

namespace Blaze

/-- The scalar "base" values that `core.py` passes through unchanged:
`base = (numbers.Real, basestring, date, datetime)`.  We embed the
integer and string cases. -/
inductive BaseVal where
  | intV (n : Int)
  | strV (s : String)
deriving DecidableEq

/-- Concrete data values bound to expressions in a scope: scalars plus
Python lists and tuples. -/
inductive Data where
  | base (v : BaseVal)
  | listD (xs : List Data)
  | tupleD (xs : List Data)

mutual
/-- Structural decidable equality for `Data` (Python `==` on values as
used for dict keys). -/
def Data.decEq : (a b : Data) → Decidable (a = b)
  | .base x, .base y =>
    if h : x = y then .isTrue (by rw [h])
    else .isFalse (by intro hh; injection hh with h2; exact h h2)
  | .listD xs, .listD ys =>
    match Data.decEqList xs ys with
    | .isTrue h => .isTrue (by rw [h])
    | .isFalse h => .isFalse (by intro hh; injection hh with h2; exact h h2)
  | .tupleD xs, .tupleD ys =>
    match Data.decEqList xs ys with
    | .isTrue h => .isTrue (by rw [h])
    | .isFalse h => .isFalse (by intro hh; injection hh with h2; exact h h2)
  | .base _, .listD _ => .isFalse (fun h => Data.noConfusion h)
  | .base _, .tupleD _ => .isFalse (fun h => Data.noConfusion h)
  | .listD _, .base _ => .isFalse (fun h => Data.noConfusion h)
  | .listD _, .tupleD _ => .isFalse (fun h => Data.noConfusion h)
  | .tupleD _, .base _ => .isFalse (fun h => Data.noConfusion h)
  | .tupleD _, .listD _ => .isFalse (fun h => Data.noConfusion h)

def Data.decEqList : (as bs : List Data) → Decidable (as = bs)
  | [], [] => .isTrue rfl
  | a :: as, b :: bs =>
    match Data.decEq a b with
    | .isTrue h1 =>
      match Data.decEqList as bs with
      | .isTrue h2 => .isTrue (by rw [h1, h2])
      | .isFalse h2 => .isFalse (by intro hh; injection hh with _ hb; exact h2 hb)
    | .isFalse h1 => .isFalse (by intro hh; injection hh with ha _; exact h1 ha)
  | [], _ :: _ => .isFalse (fun h => List.noConfusion h)
  | _ :: _, [] => .isFalse (fun h => List.noConfusion h)
end

instance : DecidableEq Data := Data.decEq

/-- The expression AST as seen by `core.py`, together with the raw
Python values (`lit`, `seq`) that may flow through `compute_up`'s
single-argument dispatch rules:
* `symbol`: a `Symbol` leaf (name and dshape);
* `dataExpr`: an interactive, resource-bound leaf (a `Symbol`
  subclass carrying concrete data), eliminated by
  `swap_resources_into_scope`;
* `lit`: a raw scalar of the `base` tuple;
* `node`: any other expression node, identified by a kind tag, with
  its ordered `_inputs`;
* `union`: a `Union` node (the one node kind `core.py` itself
  registers a `compute_up` rule for);
* `seq`: a raw Python list (`isTuple = false`) or tuple
  (`isTuple = true`) of expressions. -/
inductive Expr where
  | symbol (name dshape : String)
  | dataExpr (name dshape : String) (value : Data)
  | lit (v : BaseVal)
  | node (tag : Nat) (inputs : List Expr)
  | union (inputs : List Expr)
  | seq (isTuple : Bool) (items : List Expr)

mutual
/-- Structural decidable equality for `Expr` (blaze expressions use
structural equality and hashing, so they can serve as scope keys). -/
def Expr.decEq : (a b : Expr) → Decidable (a = b)
  | .symbol n1 d1, .symbol n2 d2 =>
    if h1 : n1 = n2 then
      if h2 : d1 = d2 then .isTrue (by rw [h1, h2])
      else .isFalse (by intro hh; injection hh with _ hb; exact h2 hb)
    else .isFalse (by intro hh; injection hh with ha _; exact h1 ha)
  | .dataExpr n1 d1 v1, .dataExpr n2 d2 v2 =>
    if h1 : n1 = n2 then
      if h2 : d1 = d2 then
        if h3 : v1 = v2 then .isTrue (by rw [h1, h2, h3])
        else .isFalse (by intro hh; injection hh with _ _ hc; exact h3 hc)
      else .isFalse (by intro hh; injection hh with _ hb _; exact h2 hb)
    else .isFalse (by intro hh; injection hh with ha _ _; exact h1 ha)
  | .lit v1, .lit v2 =>
    if h : v1 = v2 then .isTrue (by rw [h])
    else .isFalse (by intro hh; injection hh with ha; exact h ha)
  | .node t1 xs1, .node t2 xs2 =>
    if h1 : t1 = t2 then
      match Expr.decEqList xs1 xs2 with
      | .isTrue h2 => .isTrue (by rw [h1, h2])
      | .isFalse h2 => .isFalse (by intro hh; injection hh with _ hb; exact h2 hb)
    else .isFalse (by intro hh; injection hh with ha _; exact h1 ha)
  | .union xs1, .union xs2 =>
    match Expr.decEqList xs1 xs2 with
    | .isTrue h2 => .isTrue (by rw [h2])
    | .isFalse h2 => .isFalse (by intro hh; injection hh with hb; exact h2 hb)
  | .seq b1 xs1, .seq b2 xs2 =>
    if h1 : b1 = b2 then
      match Expr.decEqList xs1 xs2 with
      | .isTrue h2 => .isTrue (by rw [h1, h2])
      | .isFalse h2 => .isFalse (by intro hh; injection hh with _ hb; exact h2 hb)
    else .isFalse (by intro hh; injection hh with ha _; exact h1 ha)
  | .symbol _ _, .dataExpr _ _ _ => .isFalse (fun h => Expr.noConfusion h)
  | .symbol _ _, .lit _ => .isFalse (fun h => Expr.noConfusion h)
  | .symbol _ _, .node _ _ => .isFalse (fun h => Expr.noConfusion h)
  | .symbol _ _, .union _ => .isFalse (fun h => Expr.noConfusion h)
  | .symbol _ _, .seq _ _ => .isFalse (fun h => Expr.noConfusion h)
  | .dataExpr _ _ _, .symbol _ _ => .isFalse (fun h => Expr.noConfusion h)
  | .dataExpr _ _ _, .lit _ => .isFalse (fun h => Expr.noConfusion h)
  | .dataExpr _ _ _, .node _ _ => .isFalse (fun h => Expr.noConfusion h)
  | .dataExpr _ _ _, .union _ => .isFalse (fun h => Expr.noConfusion h)
  | .dataExpr _ _ _, .seq _ _ => .isFalse (fun h => Expr.noConfusion h)
  | .lit _, .symbol _ _ => .isFalse (fun h => Expr.noConfusion h)
  | .lit _, .dataExpr _ _ _ => .isFalse (fun h => Expr.noConfusion h)
  | .lit _, .node _ _ => .isFalse (fun h => Expr.noConfusion h)
  | .lit _, .union _ => .isFalse (fun h => Expr.noConfusion h)
  | .lit _, .seq _ _ => .isFalse (fun h => Expr.noConfusion h)
  | .node _ _, .symbol _ _ => .isFalse (fun h => Expr.noConfusion h)
  | .node _ _, .dataExpr _ _ _ => .isFalse (fun h => Expr.noConfusion h)
  | .node _ _, .lit _ => .isFalse (fun h => Expr.noConfusion h)
  | .node _ _, .union _ => .isFalse (fun h => Expr.noConfusion h)
  | .node _ _, .seq _ _ => .isFalse (fun h => Expr.noConfusion h)
  | .union _, .symbol _ _ => .isFalse (fun h => Expr.noConfusion h)
  | .union _, .dataExpr _ _ _ => .isFalse (fun h => Expr.noConfusion h)
  | .union _, .lit _ => .isFalse (fun h => Expr.noConfusion h)
  | .union _, .node _ _ => .isFalse (fun h => Expr.noConfusion h)
  | .union _, .seq _ _ => .isFalse (fun h => Expr.noConfusion h)
  | .seq _ _, .symbol _ _ => .isFalse (fun h => Expr.noConfusion h)
  | .seq _ _, .dataExpr _ _ _ => .isFalse (fun h => Expr.noConfusion h)
  | .seq _ _, .lit _ => .isFalse (fun h => Expr.noConfusion h)
  | .seq _ _, .node _ _ => .isFalse (fun h => Expr.noConfusion h)
  | .seq _ _, .union _ => .isFalse (fun h => Expr.noConfusion h)

def Expr.decEqList : (as bs : List Expr) → Decidable (as = bs)
  | [], [] => .isTrue rfl
  | a :: as, b :: bs =>
    match Expr.decEq a b with
    | .isTrue h1 =>
      match Expr.decEqList as bs with
      | .isTrue h2 => .isTrue (by rw [h1, h2])
      | .isFalse h2 => .isFalse (by intro hh; injection hh with _ hb; exact h2 hb)
    | .isFalse h1 => .isFalse (by intro hh; injection hh with ha _; exact h1 ha)
  | [], _ :: _ => .isFalse (fun h => List.noConfusion h)
  | _ :: _, [] => .isFalse (fun h => List.noConfusion h)
end

instance : DecidableEq Expr := Expr.decEq

/-- A runtime kind: the Python `type(...)` of an expression node or a
data value, as used for dispatch-registry keys. -/
inductive Kind where
  | symbolK
  | interactiveK
  | nodeK (tag : Nat)
  | unionK
  | intK
  | strK
  | listK
  | tupleK
  | noneK
deriving DecidableEq

/-- `type(v)` for a data value. -/
def Data.kind : Data → Kind
  | .base (.intV _) => .intK
  | .base (.strV _) => .strK
  | .listD _ => .listK
  | .tupleD _ => .tupleK

/-- `type(e)` for an expression or raw value in expression position. -/
def Expr.kindOf : Expr → Kind
  | .symbol _ _ => .symbolK
  | .dataExpr _ _ _ => .interactiveK
  | .lit (.intV _) => .intK
  | .lit (.strV _) => .strK
  | .node t _ => .nodeK t
  | .union _ => .unionK
  | .seq false _ => .listK
  | .seq true _ => .tupleK

/-- `type(d.get(leaf))`: the kind of an optional scope value, where a
missing key yields Python `None`. -/
def kindOfOpt : Option Data → Kind
  | none => .noneK
  | some v => v.kind

/-- `hasattr(e, '_leaves')` (equivalently `'_inputs'`): true for
blaze expressions, false for raw Python values. -/
def Expr.hasLeaves : Expr → Bool
  | .lit _ => false
  | .seq _ _ => false
  | _ => true

/-- `e._inputs` where the attribute exists (`none` models the missing
attribute on raw Python values). -/
def Expr.inputsOpt : Expr → Option (List Expr)
  | .symbol _ _ => some []
  | .dataExpr _ _ _ => some []
  | .node _ xs => some xs
  | .union xs => some xs
  | .lit _ => none
  | .seq _ _ => none

/-- First-occurrence de-duplication (`unique` over a traversal, and
Python `set` construction). -/
def dedupAux {α : Type} [DecidableEq α] (seen : List α) : List α → List α
  | [] => []
  | x :: xs => if x ∈ seen then dedupAux seen xs else x :: dedupAux (x :: seen) xs

/-- De-duplicate, keeping first occurrences. -/
def dedupExprs : List Expr → List Expr := dedupAux []

mutual
/-- `e._leaves()`: the distinct leaf symbols of the expression in a
fixed (first-occurrence) order.  On raw Python values the attribute
does not exist; they are given the junk value `[]`, guarded everywhere
by `Expr.hasLeaves`. -/
def Expr.leaves : Expr → List Expr
  | .symbol n d => [.symbol n d]
  | .dataExpr n d v => [.dataExpr n d v]
  | .node _ xs => dedupExprs (leavesList xs)
  | .union xs => dedupExprs (leavesList xs)
  | .lit _ => []
  | .seq _ _ => []

def leavesList : List Expr → List Expr
  | [] => []
  | x :: xs => x.leaves ++ leavesList xs
end

mutual
/-- `e._subterms()`: the node itself followed by all subterms
reachable through `_inputs` (pre-order). -/
def Expr.subterms : Expr → List Expr
  | .node t xs => .node t xs :: subtermsList xs
  | .union xs => .union xs :: subtermsList xs
  | e => [e]

def subtermsList : List Expr → List Expr
  | [] => []
  | x :: xs => x.subterms ++ subtermsList xs
end

/-- `isinstance(e, Symbol)`: interactive data leaves are a `Symbol`
subclass. -/
def Expr.isSymbol : Expr → Bool
  | .symbol _ _ => true
  | .dataExpr _ _ _ => true
  | _ => false

mutual
/-- `e.resources()`: the mapping from resource-bound (interactive)
leaves reachable through `_inputs` to their attached data, in
traversal order. -/
def Expr.resources : Expr → List (Expr × Data)
  | .dataExpr n d v => [(.dataExpr n d v, v)]
  | .node _ xs => resourcesList xs
  | .union xs => resourcesList xs
  | _ => []

def resourcesList : List Expr → List (Expr × Data)
  | [] => []
  | x :: xs => x.resources ++ resourcesList xs
end

/-- First-match association-list lookup (Python dict access keyed by
structural equality). -/
def lookupExpr {α : Type} (d : List (Expr × α)) (e : Expr) : Option α :=
  match d with
  | [] => none
  | (k, v) :: rest => if k = e then some v else lookupExpr rest e

mutual
/-- `e._subs(d)`: rewrite the expression, replacing every subterm that
is a key of the substitution by its image (no further rewriting inside
a replacement). -/
def Expr.subs (σ : List (Expr × Expr)) : Expr → Expr
  | .node t xs =>
    match lookupExpr σ (.node t xs) with
    | some e2 => e2
    | none => .node t (subsList σ xs)
  | .union xs =>
    match lookupExpr σ (.union xs) with
    | some e2 => e2
    | none => .union (subsList σ xs)
  | .seq b xs =>
    match lookupExpr σ (.seq b xs) with
    | some e2 => e2
    | none => .seq b (subsList σ xs)
  | e =>
    match lookupExpr σ e with
    | some e2 => e2
    | none => e

def subsList (σ : List (Expr × Expr)) : List Expr → List Expr
  | [] => []
  | x :: xs => x.subs σ :: subsList σ xs
end

/-- A scope: a mapping from expressions (chiefly symbols) to bound
data, modelled as an insertion-ordered association list. -/
abbrev Scope := List (Expr × Data)

/-- `toolz.merge(r, s)`: start from `r`, update with `s` — `r`'s keys
keep their positions but take `s`'s value on collision, and keys only
in `s` are appended in `s`'s order.  Entries of `s` win. -/
def mergeScope (r s : Scope) : Scope :=
  r.map (fun kv => (kv.1, (lookupExpr s kv.1).getD kv.2)) ++
    s.filter (fun kv => lookupExpr r kv.1 = none)

/-- The fresh unbound symbol created for a resource-bound leaf:
`Symbol(t._name, t.dshape)`. -/
def freshSymbol : Expr → Expr
  | .dataExpr n d _ => .symbol n d
  | e => e

/-- `swap_resources_into_scope(expr, scope)`: collect the
resource-bound leaves, build the old-to-new symbol substitution,
rewrite the expression, and merge the resource bindings under the
fresh symbols into the scope (existing scope entries take precedence). -/
def swap_resources_into_scope (e : Expr) (scope : Scope) : Expr × Scope :=
  let resources := e.resources
  let symbol_dict : List (Expr × Expr) :=
    resources.map (fun tv => (tv.1, freshSymbol tv.1))
  let resources2 : Scope := resources.map (fun tv => (freshSymbol tv.1, tv.2))
  (e.subs symbol_dict, mergeScope resources2 scope)

/-- Python exceptions raised by the embedded code. -/
inductive Err where
  | notImplemented (msg : String)
  | keyError
  | indexError
  | valueError (msg : String)
  | fuel
deriving DecidableEq

/-- The state of the external multiple-dispatch registry and hook
implementations, opaque to the core:
* `probeDown ks`: `compute_down.resolve(ks)` succeeds — a fused rule
  is registered for the kind tuple `ks`;
* `runDown e vals`: invoke the fused rule on the expression and its
  leaves' bound values;
* `upExtra e args kwscope`: a backend-registered `compute_up` rule
  matching `(e, args)` more specifically than the defaults of
  `core.py`, invoked with the optional `scope` keyword (`none` when
  the probe finds no such rule and the defaults apply);
* `pre_compute`, `optimize`, `post_compute`: the three hook points. -/
structure Rules where
  probeDown : List Kind → Bool
  runDown : Expr → List Data → Except Err Data
  upExtra : Expr → List Data → Option Scope → Option (Except Err Data)
  pre_compute : Expr → Scope → Except Err Expr
  optimize : Expr → List Data → Except Err Expr
  post_compute : Expr → Data → Scope → Except Err Data

/-- `[d[leaf] for leaf in leaves]`: fetch every leaf's bound value,
raising `KeyError` on a missing leaf. -/
def lookupLeaves (d : Scope) : List Expr → Except Err (List Data)
  | [] => .ok []
  | l :: ls =>
    match lookupExpr d l with
    | some v => (lookupLeaves d ls).map (v :: ·)
    | none => .error .keyError

/-- `[v for e, v in d.items() if e in expr]`: the bound data of scope
entries whose key occurs in the expression, in scope order (the
positional arguments handed to `optimize`). -/
def optimizeArgs (d : Scope) (e : Expr) : List Data :=
  (d.filter (fun kv => kv.1 ∈ e.subterms)).map (fun kv => kv.2)

/-- The default `compute_down` rule of `core.py` (`@dispatch(object)`):
identity on the expression.  It is reachable only for the one-element
kind tuple of a leafless expression; in the parametric model this
registration is folded into `Rules.probeDown` / `Rules.runDown`. -/
def compute_down_default (e : Expr) : Expr := e

/-- The `try: expr4 = optimize(expr3, ...) except NotImplementedError:
expr4 = expr3` step of `compute`: recover from `NotImplementedError`
(and only from it) by keeping the pre-optimization expression. -/
def optStep (R : Rules) (e3 : Expr) (args : List Data) : Except Err Expr :=
  match R.optimize e3 args with
  | .ok e4 => .ok e4
  | .error err =>
    match err with
    | .notImplemented _ => .ok e3
    | err2 => .error err2

/-- The re-dispatch performed by the `@dispatch(Union, (list, tuple))`
rule of `compute_up`: `compute_up(t, children[0], tuple(children))`.
The three-positional-argument call matches no default rule of
`core.py` (and forwards no `scope` keyword), so it resolves to a
backend rule or fails. -/
def unionRedispatch (R : Rules) (e : Expr) (cs : List Data) : Except Err Data :=
  match cs with
  | [] => .error .indexError
  | c0 :: _ =>
    match R.upExtra e [c0, .tupleD cs] none with
    | some r => r
    | none => .error (.notImplemented "Could not find signature for compute_up")

mutual
/-- `top_to_bottom(d, expr)`: if the expression is a key of the scope,
return its bound value; otherwise, if the expression has leaves and a
fused `compute_down` rule is registered for
`(type(expr), type(d.get(leaf)) for leaf in expr._leaves())`, fetch
the leaves' bound values and invoke the fused rule; otherwise compute
the children recursively and invoke `compute_up`. -/
def top_to_bottom (R : Rules) : Nat → Scope → Expr → Except Err Data
  | 0, _, _ => .error .fuel
  | f + 1, d, e =>
    match lookupExpr d e with
    | some v => .ok v
    | none =>
      if e.hasLeaves &&
          R.probeDown (e.kindOf :: e.leaves.map (fun l => kindOfOpt (lookupExpr d l))) then
        match lookupLeaves d e.leaves with
        | .ok vals => R.runDown e vals
        | .error err => .error err
      else
        match (match e.inputsOpt with
               | some ins => ins.mapM (top_to_bottom R f d)
               | none => .ok []) with
        | .ok children => compute_up R f d e children
        | .error err => .error err

/-- `bottom_up(d, expr)`: identical base case, but always recurses
into the children and invokes `compute_up` — never the fused
shortcut. -/
def bottom_up (R : Rules) : Nat → Scope → Expr → Except Err Data
  | 0, _, _ => .error .fuel
  | f + 1, d, e =>
    match lookupExpr d e with
    | some v => .ok v
    | none =>
      match (match e.inputsOpt with
             | some ins => ins.mapM (bottom_up R f d)
             | none => .ok []) with
      | .ok children => compute_up R f d e children
      | .error err => .error err

/-- The dispatched call `compute_up(expr, *children, scope=d)`: a
backend rule more specific than the defaults wins; otherwise the
default rules registered in `core.py` itself apply. -/
def compute_up (R : Rules) : Nat → Scope → Expr → List Data → Except Err Data
  | 0, _, _, _ => .error .fuel
  | f + 1, d, e, args =>
    match R.upExtra e args (some d) with
    | some r => r
    | none => compute_up_default R f d e args

/-- The `compute_up` rules registered in `core.py` itself, tried when
no more specific backend rule matches: a raw scalar of the `base`
tuple passes through (`@dispatch(base)`), a raw list/tuple evaluates
each item through `compute` against the scope and rebuilds the same
container kind (`@dispatch((list, tuple))`), a `Union` node over one
already-computed list/tuple re-dispatches on its first child
(`@dispatch(Union, (list, tuple))`), and any other combination raises
`NotImplementedError` (the `@dispatch(object, object)` catch-all, or
the dispatcher's own signature failure). -/
def compute_up_default (R : Rules) : Nat → Scope → Expr → List Data → Except Err Data
  | 0, _, _, _ => .error .fuel
  | f + 1, d, e, args =>
    match e with
    | .lit v =>
      match args with
      | [] => .ok (.base v)
      | _ => .error (.notImplemented "Blaze does not know how to compute that")
    | .seq b items =>
      match args with
      | [] =>
        match items.mapM (compute R f d) with
        | .ok vs => .ok (if b then .tupleD vs else .listD vs)
        | .error err => .error err
      | _ => .error (.notImplemented "Blaze does not know how to compute that")
    | .union xs =>
      match args with
      | [c] =>
        match c with
        | .listD cs => unionRedispatch R (.union xs) cs
        | .tupleD cs => unionRedispatch R (.union xs) cs
        | _ => .error (.notImplemented "Blaze does not know how to compute that")
      | _ => .error (.notImplemented "Blaze does not know how to compute that")
    | _ => .error (.notImplemented "Blaze does not know how to compute that")

/-- `compute(expr, d)` for a scope dictionary `d`: swap resources into
the scope, run the `pre_compute` hook, run the `optimize` hook
recovering (only) from `NotImplementedError` by keeping the
pre-optimization expression, evaluate with `top_to_bottom`, and run
the `post_compute` hook. -/
def compute (R : Rules) : Nat → Scope → Expr → Except Err Data
  | 0, _, _ => .error .fuel
  | f + 1, d, e =>
    let p := swap_resources_into_scope e d
    match R.pre_compute p.1 p.2 with
    | .error err => .error err
    | .ok expr3 =>
      match optStep R expr3 (optimizeArgs p.2 expr3) with
      | .error err => .error err
      | .ok expr4 =>
        match top_to_bottom R f p.2 expr4 with
        | .error err => .error err
        | .ok result => R.post_compute expr4 result p.2
end

/-- `compute(expr, o)` for non-dict data `o` (the single-source
adapter): collect the set of distinct `Symbol` subterms; with exactly
one symbol, delegate to `compute` with the one-entry scope, otherwise
raise `ValueError`. -/
def compute_single (R : Rules) (f : Nat) (e : Expr) (o : Data) : Except Err Data :=
  let ts := dedupExprs (e.subterms.filter (fun x => x.isSymbol))
  match ts with
  | [s] => compute R f [(s, o)] e
  | _ => .error (.valueError "Give compute dictionary input")

/-! ### The elementwise compiler -/

/-- The scalar expression forming the body of a `Broadcast`: column
references of one tabular record combined by scalar operations. -/
inductive ScalarExpr where
  | col (name : String)
  | intLit (n : Int)
  | add (a b : ScalarExpr)
  | sub (a b : ScalarExpr)
  | mul (a b : ScalarExpr)
deriving DecidableEq

/-- Column references of the scalar body, in traversal order, with
duplicates. -/
def ScalarExpr.columns : ScalarExpr → List String
  | .col n => [n]
  | .intLit _ => []
  | .add a b => a.columns ++ b.columns
  | .sub a b => a.columns ++ b.columns
  | .mul a b => a.columns ++ b.columns

/-- An atomic rendering needs no parentheses. -/
def ScalarExpr.isAtom : ScalarExpr → Bool
  | .col _ => true
  | .intLit _ => true
  | _ => false

/-- Modelled from the spec: `eval_str(t.expr)` (defined in the
external expression layer, `blaze.expr`, not under `src/`) — the
scalar expression re-rendered as an evaluable text form referencing
the column names. -/
def eval_str : ScalarExpr → String
  | .col n => n
  | .intLit n => toString n
  | .add a b =>
    (if a.isAtom then eval_str a else "(" ++ eval_str a ++ ")") ++ " + " ++
      (if b.isAtom then eval_str b else "(" ++ eval_str b ++ ")")
  | .sub a b =>
    (if a.isAtom then eval_str a else "(" ++ eval_str a ++ ")") ++ " - " ++
      (if b.isAtom then eval_str b else "(" ++ eval_str b ++ ")")
  | .mul a b =>
    (if a.isAtom then eval_str a else "(" ++ eval_str a ++ ")") ++ " * " ++
      (if b.isAtom then eval_str b else "(" ++ eval_str b ++ ")")

/-- A `Broadcast` expression as consumed by `columnwise_funcstr`: the
field list of the parent record (`t._child.fields`) and the scalar
body (`t.expr`). -/
structure Broadcast where
  childFields : List String
  expr : ScalarExpr

/-- Modelled from the spec: `t.active_columns()` (defined in the
external expression layer, not under `src/`) — the distinct columns
referenced by the body, in deterministic (first-occurrence) order. -/
def Broadcast.active_columns (t : Broadcast) : List String :=
  dedupAux [] t.expr.columns

/-- `', '.join(...)`. -/
def joinComma : List String → String
  | [] => ""
  | [s] => s
  | s :: rest => s ++ ", " ++ joinComma rest

/-- `columnwise_funcstr(t, variadic, full)`: the source text of a
single-row lambda whose parameters are the full field set when `full`
else the active columns, rendered variadically or as one destructured
tuple, and whose body is `eval_str(t.expr)`. -/
def columnwise_funcstr (t : Broadcast) (variadic full : Bool) : String :=
  let columns := if full then t.childFields else t.active_columns
  let pre :=
    if variadic then "lambda " ++ joinComma columns ++ ": "
    else "lambda (" ++ joinComma columns ++ "): "
  pre ++ eval_str t.expr

/-- Modelled from the spec: the Elementwise Compiler's precondition —
enforced in the external expression layer when the broadcast is
constructed, not under `src/` — that every column referenced by the
body lies in the allowed parameter set (the referenced columns when
`full` is false, the parent record's full field set when `full` is
true); a violation is a fatal precondition error instead of function
text. -/
def columnwise_funcstr_checked (t : Broadcast) (variadic full : Bool) :
    Except Err String :=
  let allowed := if full then t.childFields else t.active_columns
  if t.expr.columns.all (fun c => c ∈ allowed) then
    .ok (columnwise_funcstr t variadic full)
  else
    .error (.valueError "Broadcast leaf references a column outside the allowed set")

/-- A registry state with no backend-registered rules: the probe
always fails, no extra `compute_up` rule matches, and the three hooks
are the identity defaults registered in `core.py`. -/
def defaultRules : Rules where
  probeDown := fun _ => false
  runDown := fun _ _ => .error (.notImplemented "compute_down")
  upExtra := fun _ _ _ => none
  pre_compute := fun e _ => .ok e
  optimize := fun e _ => .ok e
  post_compute := fun _ r _ => .ok r

/-- The same registry with the `optimize` hook replaced by the
identity default — the pipeline with optimization skipped entirely. -/
def skipOpt (R : Rules) : Rules := { R with optimize := fun e _ => .ok e }

/-! ### Lemmas -/

/-- Association-list lookup distributes over append: a hit in the
first list wins. -/
theorem lookupExpr_append_some {α : Type} {a : List (Expr × α)} (b : List (Expr × α))
    {k : Expr} {v : α} (h : lookupExpr a k = some v) :
    lookupExpr (a ++ b) k = some v := by
  induction a with
  | nil => simp [lookupExpr] at h
  | cons kv rest ih =>
    rw [List.cons_append]
    rw [lookupExpr] at h ⊢
    by_cases hk : kv.1 = k
    · simpa [hk] using h
    · simp only [hk, if_false] at h ⊢
      exact ih h

/-- Association-list lookup distributes over append: a miss in the
first list falls through to the second. -/
theorem lookupExpr_append_none {α : Type} {a : List (Expr × α)} (b : List (Expr × α))
    {k : Expr} (h : lookupExpr a k = none) :
    lookupExpr (a ++ b) k = lookupExpr b k := by
  induction a with
  | nil => rfl
  | cons kv rest ih =>
    rw [List.cons_append]
    rw [lookupExpr] at h ⊢
    by_cases hk : kv.1 = k
    · simp [hk] at h
    · simp only [hk, if_false] at h ⊢
      exact ih h

/-- Lookup in a key-preserving remapping of an association list. -/
theorem lookupExpr_map_value (s : Scope) :
    ∀ (r : Scope) (k : Expr),
      lookupExpr (r.map (fun kv => (kv.1, (lookupExpr s kv.1).getD kv.2))) k =
        (lookupExpr r k).map (fun w => (lookupExpr s k).getD w) := by
  intro r
  induction r with
  | nil => intro k; rfl
  | cons kv rest ih =>
    intro k
    rw [List.map_cons]
    rw [lookupExpr, lookupExpr]
    by_cases hk : kv.1 = k
    · subst hk; simp
    · simp only [hk, if_false]
      exact ih k

/-- Filtering by a predicate that holds on a key keeps that key's
first binding. -/
theorem lookupExpr_filter_keydet (r : Scope) :
    ∀ (s : Scope) (k : Expr), lookupExpr r k = none →
      lookupExpr (s.filter (fun kv => lookupExpr r kv.1 = none)) k = lookupExpr s k := by
  intro s
  induction s with
  | nil => intro k _; rfl
  | cons kv rest ih =>
    intro k hk
    by_cases hkv : kv.1 = k
    · subst hkv
      simp [List.filter_cons, hk, lookupExpr]
    · rw [List.filter_cons]
      by_cases hp : lookupExpr r kv.1 = none
      · simp only [hp, decide_True, if_true]
        rw [lookupExpr, lookupExpr]
        simp only [hkv, if_false]
        exact ih k hk
      · simp only [hp, decide_False, if_false]
        rw [lookupExpr]
        simp only [hkv, if_false]
        exact ih k hk

/-- Caller-supplied entries survive `toolz.merge(resources, scope)`
unchanged. -/
theorem lookupExpr_mergeScope (r s : Scope) (k : Expr) (v : Data)
    (h : lookupExpr s k = some v) :
    lookupExpr (mergeScope r s) k = some v := by
  unfold mergeScope
  cases hr : lookupExpr r k with
  | some w =>
    have hm := lookupExpr_map_value s r k
    rw [hr] at hm
    have hv : (Option.map (fun w => (lookupExpr s k).getD w) (some w)) =
        some ((lookupExpr s k).getD w) := rfl
    rw [hv] at hm
    have hgd : (lookupExpr s k).getD w = v := by rw [h]; rfl
    rw [hgd] at hm
    exact lookupExpr_append_some _ hm
  | none =>
    have hm := lookupExpr_map_value s r k
    rw [hr] at hm
    have hv : (Option.map (fun w => (lookupExpr s k).getD w) (none : Option Data)) =
        none := rfl
    rw [hv] at hm
    rw [lookupExpr_append_none _ hm]
    rw [lookupExpr_filter_keydet r s k hr]
    exact h

/-- An expression is its own first subterm. -/
theorem self_mem_subterms (e : Expr) : e ∈ e.subterms := by
  cases e <;> simp [Expr.subterms]

/-- Subterms of a member of a list are subterms of the list. -/
theorem mem_subtermsList {x : Expr} :
    ∀ {xs : List Expr}, x ∈ xs → ∀ {s : Expr}, s ∈ x.subterms → s ∈ subtermsList xs := by
  intro xs
  induction xs with
  | nil => intro h; cases h
  | cons y ys ih =>
    intro hx s hs
    rw [subtermsList]
    rcases List.mem_cons.mp hx with h | h
    · subst h; exact List.mem_append_left _ hs
    · exact List.mem_append_right _ (ih h hs)

/-- When every leaf is bound, the probed kinds are the kinds of the
bound values. -/
theorem lookupLeaves_kinds {d : Scope} :
    ∀ {ls : List Expr} {vals : List Data}, lookupLeaves d ls = .ok vals →
      ls.map (fun l => kindOfOpt (lookupExpr d l)) = vals.map Data.kind := by
  intro ls
  induction ls with
  | nil =>
    intro vals h
    rw [lookupLeaves] at h
    cases h
    rfl
  | cons l ls ih =>
    intro vals h
    rw [lookupLeaves] at h
    cases hl : lookupExpr d l with
    | none => rw [hl] at h; cases h
    | some v =>
      rw [hl] at h
      cases hrest : lookupLeaves d ls with
      | error err => rw [hrest] at h; cases h
      | ok vals' =>
        rw [hrest] at h
        cases h
        rw [List.map_cons, List.map_cons, ih hrest, hl]
        rfl

/-- `mapM` over `Except` respects pointwise-equal functions. -/
theorem mapM_congr_except {α β : Type} {g h : α → Except Err β} :
    ∀ (xs : List α), (∀ x ∈ xs, g x = h x) → xs.mapM g = xs.mapM h := by
  intro xs
  induction xs with
  | nil => intro _; rfl
  | cons x xs ih =>
    intro hgh
    rw [List.mapM_cons, List.mapM_cons]
    rw [hgh x (List.mem_cons_self x xs)]
    rw [ih (fun y hy => hgh y (List.mem_cons_of_mem x hy))]

/-- A successful lookup finds a pair of the list. -/
theorem lookupExpr_mem {α : Type} :
    ∀ {l : List (Expr × α)} {k : Expr} {v : α},
      lookupExpr l k = some v → (k, v) ∈ l := by
  intro l
  induction l with
  | nil => intro k v h; cases h
  | cons kv rest ih =>
    obtain ⟨a, b⟩ := kv
    intro k v h
    rw [lookupExpr] at h
    by_cases hk : a = k
    · subst hk
      rw [if_pos rfl] at h
      cases Option.some.inj h
      exact List.mem_cons_self _ _
    · rw [if_neg hk] at h
      exact List.mem_cons_of_mem _ (ih h)

/-- Keys of the original list stay visible through a key-preserving
remapping. -/
theorem lookupExpr_map_key (g : Expr × Data → Expr) :
    ∀ (l : List (Expr × Data)) (r : Expr × Data), r ∈ l →
      lookupExpr (l.map (fun tv => (tv.1, g tv))) r.1 ≠ none := by
  intro l
  induction l with
  | nil => intro r hr; cases hr
  | cons tv rest ih =>
    intro r hr
    rw [List.map_cons, lookupExpr]
    by_cases hk : tv.1 = r.1
    · simp [hk]
    · rw [if_neg hk]
      rcases List.mem_cons.mp hr with h | h
      · exact absurd (congrArg Prod.fst h).symm hk
      · exact ih r h

mutual
/-- Substitution by the empty mapping is the identity. -/
theorem subs_nil : (e : Expr) → e.subs [] = e
  | .symbol _ _ => rfl
  | .dataExpr _ _ _ => rfl
  | .lit _ => rfl
  | .node t xs => by
    have h : (Expr.node t xs).subs [] = Expr.node t (subsList [] xs) := rfl
    rw [h, subsList_nil xs]
  | .union xs => by
    have h : (Expr.union xs).subs [] = Expr.union (subsList [] xs) := rfl
    rw [h, subsList_nil xs]
  | .seq b xs => by
    have h : (Expr.seq b xs).subs [] = Expr.seq b (subsList [] xs) := rfl
    rw [h, subsList_nil xs]

/-- List version of `subs_nil`. -/
theorem subsList_nil : (xs : List Expr) → subsList [] xs = xs
  | [] => rfl
  | x :: xs => by
    have h : subsList [] (x :: xs) = x.subs [] :: subsList [] xs := rfl
    rw [h, subs_nil x, subsList_nil xs]
end

/-- Merging an empty resource mapping leaves the scope unchanged. -/
theorem mergeScope_nil (s : Scope) : mergeScope [] s = s := by
  unfold mergeScope
  rw [List.map_nil, List.nil_append]
  simp [lookupExpr]

mutual
/-- Every collected resource pair is an interactive leaf together with
its attached data. -/
theorem resources_key_shape :
    (e : Expr) → ∀ r ∈ e.resources, ∃ n d v, r = (Expr.dataExpr n d v, v)
  | .dataExpr n d v => by
    intro r hr
    have h : (Expr.dataExpr n d v).resources = [(Expr.dataExpr n d v, v)] := rfl
    rw [h] at hr
    exact ⟨n, d, v, List.mem_singleton.mp hr⟩
  | .node t xs => by
    intro r hr
    have h : (Expr.node t xs).resources = resourcesList xs := rfl
    rw [h] at hr
    exact resources_key_shapeList xs r hr
  | .union xs => by
    intro r hr
    have h : (Expr.union xs).resources = resourcesList xs := rfl
    rw [h] at hr
    exact resources_key_shapeList xs r hr
  | .symbol _ _ => by intro r hr; cases hr
  | .lit _ => by intro r hr; cases hr
  | .seq _ _ => by intro r hr; cases hr

/-- List version of `resources_key_shape`. -/
theorem resources_key_shapeList :
    (xs : List Expr) → ∀ r ∈ resourcesList xs, ∃ n d v, r = (Expr.dataExpr n d v, v)
  | [] => by intro r hr; cases hr
  | x :: xs => by
    intro r hr
    have h : resourcesList (x :: xs) = x.resources ++ resourcesList xs := rfl
    rw [h] at hr
    rcases List.mem_append.mp hr with h2 | h2
    · exact resources_key_shape x r h2
    · exact resources_key_shapeList xs r h2
end

mutual
/-- After substituting away every resource-bound leaf (by images that
carry no resources themselves), no resources remain. -/
theorem resources_subs (σ : List (Expr × Expr))
    (hσ : ∀ p ∈ σ, Expr.resources p.2 = []) :
    (e : Expr) → (∀ r ∈ e.resources, lookupExpr σ r.1 ≠ none) →
      (e.subs σ).resources = []
  | .symbol n d, _ => by
    have h2 : (Expr.symbol n d).subs σ =
        (match lookupExpr σ (Expr.symbol n d) with
         | some e2 => e2
         | none => Expr.symbol n d) := rfl
    rw [h2]
    cases hl : lookupExpr σ (Expr.symbol n d) with
    | some e2 => exact hσ _ (lookupExpr_mem hl)
    | none => rfl
  | .dataExpr n d v, hcov => by
    have h2 : (Expr.dataExpr n d v).subs σ =
        (match lookupExpr σ (Expr.dataExpr n d v) with
         | some e2 => e2
         | none => Expr.dataExpr n d v) := rfl
    rw [h2]
    cases hl : lookupExpr σ (Expr.dataExpr n d v) with
    | some e2 => exact hσ _ (lookupExpr_mem hl)
    | none =>
      exact absurd hl (hcov (Expr.dataExpr n d v, v)
        (show _ ∈ [(Expr.dataExpr n d v, v)] from List.mem_singleton.mpr rfl))
  | .lit v, _ => by
    have h2 : (Expr.lit v).subs σ =
        (match lookupExpr σ (Expr.lit v) with
         | some e2 => e2
         | none => Expr.lit v) := rfl
    rw [h2]
    cases hl : lookupExpr σ (Expr.lit v) with
    | some e2 => exact hσ _ (lookupExpr_mem hl)
    | none => rfl
  | .node t xs, hcov => by
    have h2 : (Expr.node t xs).subs σ =
        (match lookupExpr σ (Expr.node t xs) with
         | some e2 => e2
         | none => Expr.node t (subsList σ xs)) := rfl
    rw [h2]
    cases hl : lookupExpr σ (Expr.node t xs) with
    | some e2 => exact hσ _ (lookupExpr_mem hl)
    | none =>
      have h3 : (Expr.node t (subsList σ xs)).resources =
          resourcesList (subsList σ xs) := rfl
      rw [h3]
      exact resources_subsList σ hσ xs (fun r hr => hcov r (by
        have h4 : (Expr.node t xs).resources = resourcesList xs := rfl
        rw [h4]
        exact hr))
  | .union xs, hcov => by
    have h2 : (Expr.union xs).subs σ =
        (match lookupExpr σ (Expr.union xs) with
         | some e2 => e2
         | none => Expr.union (subsList σ xs)) := rfl
    rw [h2]
    cases hl : lookupExpr σ (Expr.union xs) with
    | some e2 => exact hσ _ (lookupExpr_mem hl)
    | none =>
      have h3 : (Expr.union (subsList σ xs)).resources =
          resourcesList (subsList σ xs) := rfl
      rw [h3]
      exact resources_subsList σ hσ xs (fun r hr => hcov r (by
        have h4 : (Expr.union xs).resources = resourcesList xs := rfl
        rw [h4]
        exact hr))
  | .seq b xs, _ => by
    have h2 : (Expr.seq b xs).subs σ =
        (match lookupExpr σ (Expr.seq b xs) with
         | some e2 => e2
         | none => Expr.seq b (subsList σ xs)) := rfl
    rw [h2]
    cases hl : lookupExpr σ (Expr.seq b xs) with
    | some e2 => exact hσ _ (lookupExpr_mem hl)
    | none => rfl

/-- List version of `resources_subs`. -/
theorem resources_subsList (σ : List (Expr × Expr))
    (hσ : ∀ p ∈ σ, Expr.resources p.2 = []) :
    (xs : List Expr) → (∀ r ∈ resourcesList xs, lookupExpr σ r.1 ≠ none) →
      resourcesList (subsList σ xs) = []
  | [], _ => rfl
  | x :: xs, hcov => by
    have h2 : subsList σ (x :: xs) = x.subs σ :: subsList σ xs := rfl
    have h3 : resourcesList (x.subs σ :: subsList σ xs) =
        (x.subs σ).resources ++ resourcesList (subsList σ xs) := rfl
    rw [h2, h3]
    rw [resources_subs σ hσ x (fun r hr => hcov r (by
      have h4 : resourcesList (x :: xs) = x.resources ++ resourcesList xs := rfl
      rw [h4]
      exact List.mem_append_left _ hr))]
    rw [resources_subsList σ hσ xs (fun r hr => hcov r (by
      have h4 : resourcesList (x :: xs) = x.resources ++ resourcesList xs := rfl
      rw [h4]
      exact List.mem_append_right _ hr))]
    rfl
end

/-- Two registry states agreeing on everything the evaluator consults
— in particular with pointwise-equal recovered optimization steps —
give identical evaluators. -/
theorem eval_congr (R1 R2 : Rules)
    (hp : R1.probeDown = R2.probeDown) (hr : R1.runDown = R2.runDown)
    (hu : R1.upExtra = R2.upExtra) (hpre : R1.pre_compute = R2.pre_compute)
    (hpost : R1.post_compute = R2.post_compute)
    (hopt : ∀ e args, optStep R1 e args = optStep R2 e args) :
    ∀ f : Nat,
      (∀ d e, top_to_bottom R1 f d e = top_to_bottom R2 f d e) ∧
      (∀ d e args, compute_up R1 f d e args = compute_up R2 f d e args) ∧
      (∀ d e args, compute_up_default R1 f d e args = compute_up_default R2 f d e args) ∧
      (∀ d e, compute R1 f d e = compute R2 f d e) := by
  intro f
  induction f with
  | zero => exact ⟨fun _ _ => rfl, fun _ _ _ => rfl, fun _ _ _ => rfl, fun _ _ => rfl⟩
  | succ f ih =>
    obtain ⟨iht, ihu, ihd, ihc⟩ := ih
    refine ⟨?_, ?_, ?_, ?_⟩
    · intro d e
      rw [top_to_bottom, top_to_bottom, hp, hr]
      cases hl : lookupExpr d e with
      | some v => rfl
      | none =>
        have hmap : (match e.inputsOpt with
            | some ins => ins.mapM (top_to_bottom R1 f d)
            | none => Except.ok []) =
            (match e.inputsOpt with
            | some ins => ins.mapM (top_to_bottom R2 f d)
            | none => Except.ok []) := by
          cases e.inputsOpt with
          | none => rfl
          | some ins => exact mapM_congr_except ins (fun x _ => iht d x)
        rw [hmap]
        cases hx : (match e.inputsOpt with
            | some ins => ins.mapM (top_to_bottom R2 f d)
            | none => Except.ok []) with
        | ok children => exact if_congr Iff.rfl rfl (ihu d e children)
        | error err => rfl
    · intro d e args
      rw [compute_up, compute_up, hu]
      cases hx : R2.upExtra e args (some d) with
      | some r => rfl
      | none => exact ihd d e args
    · intro d e args
      have hun : ∀ e2 cs, unionRedispatch R1 e2 cs = unionRedispatch R2 e2 cs := by
        intro e2 cs
        cases cs with
        | nil => rfl
        | cons c0 rest => rw [unionRedispatch, unionRedispatch, hu]
      cases e with
      | lit v =>
        cases args with
        | nil => rfl
        | cons c a => rfl
      | seq b items =>
        cases args with
        | nil =>
          have hm : items.mapM (compute R1 f d) = items.mapM (compute R2 f d) :=
            mapM_congr_except items (fun x _ => ihc d x)
          have hL : compute_up_default R1 (f + 1) d (.seq b items) [] =
              (match items.mapM (compute R1 f d) with
               | .ok vs => Except.ok (if b then Data.tupleD vs else Data.listD vs)
               | .error err => Except.error err) := rfl
          have hR : compute_up_default R2 (f + 1) d (.seq b items) [] =
              (match items.mapM (compute R2 f d) with
               | .ok vs => Except.ok (if b then Data.tupleD vs else Data.listD vs)
               | .error err => Except.error err) := rfl
          rw [hL, hR, hm]
        | cons c a => rfl
      | union xs =>
        cases args with
        | nil => rfl
        | cons c a =>
          cases a with
          | nil =>
            cases c with
            | base v => rfl
            | listD cs => exact hun (.union xs) cs
            | tupleD cs => exact hun (.union xs) cs
          | cons c2 a2 => rfl
      | symbol n ds => rfl
      | dataExpr n ds v => rfl
      | node t xs => rfl
    · intro d e
      rw [compute, compute, hpre]
      cases hpc : R2.pre_compute (swap_resources_into_scope e d).1
          (swap_resources_into_scope e d).2 with
      | error err => rfl
      | ok expr3 => simp only [hopt, iht, hpost]

/-! ### The claims -/

/-- C6: for every expression and caller-supplied scope, the scope
returned by `swap_resources_into_scope` maps every key of the caller's
scope to the caller's original value — a resource-derived entry never
overrides a caller-supplied entry on key collision. -/
theorem swap_resources_preserves_caller (e : Expr) (scope : Scope) (k : Expr) (v : Data)
    (h : lookupExpr scope k = some v) :
    lookupExpr (swap_resources_into_scope e scope).2 k = some v := by
  unfold swap_resources_into_scope
  exact lookupExpr_mergeScope _ _ k v h

/-- Witness for C6: an interactive leaf named `t` collides with the
caller's binding for the symbol `t`; the caller's value survives. -/
theorem swap_resources_preserves_caller_witness :
    lookupExpr [(Expr.symbol "t" "3 * int", Data.base (.intV 1))]
        (Expr.symbol "t" "3 * int") = some (Data.base (.intV 1)) ∧
    lookupExpr
        (swap_resources_into_scope (Expr.dataExpr "t" "3 * int" (Data.base (.intV 9)))
          [(Expr.symbol "t" "3 * int", Data.base (.intV 1))]).2
        (Expr.symbol "t" "3 * int") = some (Data.base (.intV 1)) :=
  ⟨rfl, swap_resources_preserves_caller _ _ _ _ rfl⟩

/-- C9: the elementwise compiler renders `lambda <params>: <body>`:
for `x + z` over fields `(x, y, z)` with `variadic` and not `full` the
parameters are `(x, z)` and the body `x + z`; with `full` the
parameters are `(x, y, z)` with the same body. -/
theorem columnwise_funcstr_example :
    columnwise_funcstr ⟨["x", "y", "z"], .add (.col "x") (.col "z")⟩ true false =
      "lambda x, z: x + z" ∧
    columnwise_funcstr ⟨["x", "y", "z"], .add (.col "x") (.col "z")⟩ true true =
      "lambda x, y, z: x + z" := by
  exact ⟨rfl, rfl⟩

/-- C8: a broadcast whose body references a column outside the allowed
parameter set (the referenced columns when `full` is false, the parent
record's field set when `full` is true) makes the checked elementwise
compiler fail with a fatal precondition error instead of producing
function text. -/
theorem columnwise_funcstr_checked_error (t : Broadcast) (variadic full : Bool)
    (c : String) (hc : c ∈ t.expr.columns)
    (hout : c ∉ (if full then t.childFields else t.active_columns)) :
    ∃ msg, columnwise_funcstr_checked t variadic full = .error (.valueError msg) := by
  refine ⟨"Broadcast leaf references a column outside the allowed set", ?_⟩
  have hall : t.expr.columns.all
      (fun c => c ∈ (if full then t.childFields else t.active_columns)) = false := by
    rw [List.all_eq_false]
    exact ⟨c, hc, by simpa using hout⟩
  have hdef : columnwise_funcstr_checked t variadic full =
      (if (t.expr.columns.all
            (fun c => c ∈ (if full then t.childFields else t.active_columns))) = true
       then Except.ok (columnwise_funcstr t variadic full)
       else Except.error
         (Err.valueError "Broadcast leaf references a column outside the allowed set")) := rfl
  rw [hdef, hall]
  rfl

/-- Witness for C8: with `full = true`, the body column `w` is outside
the record fields `[x]`. -/
theorem columnwise_funcstr_checked_error_witness :
    ∃ msg, columnwise_funcstr_checked ⟨["x"], .col "w"⟩ true true =
      .error (.valueError msg) :=
  columnwise_funcstr_checked_error ⟨["x"], .col "w"⟩ true true "w" (by decide) (by decide)

/-- C4: for an expression with exactly one distinct `Symbol` subterm
`s`, the single-source adapter delegates to `compute` with the
one-entry scope binding `s` to the data. -/
theorem compute_single_source_eq (R : Rules) (f : Nat) (e s : Expr) (o : Data)
    (h : dedupExprs (e.subterms.filter (fun x => x.isSymbol)) = [s]) :
    compute_single R f e o = compute R f [(s, o)] e := by
  unfold compute_single
  rw [h]

/-- Witness for C4: a single symbol expression, evaluated against the
empty registry. -/
theorem compute_single_source_eq_witness :
    dedupExprs ((Expr.symbol "t" "int").subterms.filter (fun x => x.isSymbol)) =
      [Expr.symbol "t" "int"] ∧
    compute_single defaultRules 3 (Expr.symbol "t" "int") (Data.base (.intV 5)) =
      compute defaultRules 3 [(Expr.symbol "t" "int", Data.base (.intV 5))]
        (Expr.symbol "t" "int") :=
  ⟨rfl, compute_single_source_eq defaultRules 3 _ _ _ rfl⟩

/-- C5: with zero or at least two distinct `Symbol` subterms, the
single-source adapter raises a usage error (`ValueError`) and returns
no result. -/
theorem compute_single_usage_error (R : Rules) (f : Nat) (e : Expr) (o : Data)
    (h : (dedupExprs (e.subterms.filter (fun x => x.isSymbol))).length ≠ 1) :
    ∃ msg, compute_single R f e o = .error (.valueError msg) := by
  refine ⟨"Give compute dictionary input", ?_⟩
  unfold compute_single
  rcases hts : dedupExprs (e.subterms.filter (fun x => x.isSymbol)) with _ | ⟨s, _ | ⟨t, rest⟩⟩
  · rfl
  · rw [hts] at h
    simp at h
  · rfl

/-- C2: for an expression that is not a key of the scope, with a fused
handler registered for the kind tuple of the expression followed by
the kinds of the values bound to its leaves in leaf order,
`top_to_bottom` invokes that fused handler on the expression and the
leaves' bound values, evaluating no intermediate sub-expression. -/
theorem top_to_bottom_fused (R : Rules) (f : Nat) (d : Scope) (e : Expr) (vals : List Data)
    (hbase : lookupExpr d e = none)
    (hleaves : e.hasLeaves = true)
    (hbound : lookupLeaves d e.leaves = .ok vals)
    (hprobe : R.probeDown (e.kindOf :: vals.map Data.kind) = true) :
    top_to_bottom R (f + 1) d e = R.runDown e vals := by
  rw [top_to_bottom, hbase]
  rw [lookupLeaves_kinds hbound, hleaves, hprobe]
  simp only [Bool.and_self, if_true]
  rw [hbound]

/-- Witness for C2: a one-node chain over a bound symbol with a fused
rule registered for two-kind tuples. -/
theorem top_to_bottom_fused_witness :
    top_to_bottom
        { defaultRules with
          probeDown := fun ks => ks.length == 2
          runDown := fun _ _ => .ok (.base (.intV 42)) }
        1 [(Expr.symbol "t" "var * int", Data.base (.intV 7))]
        (Expr.node 0 [Expr.symbol "t" "var * int"]) =
      Rules.runDown
        { defaultRules with
          probeDown := fun ks => ks.length == 2
          runDown := fun _ _ => .ok (.base (.intV 42)) }
        (Expr.node 0 [Expr.symbol "t" "var * int"]) [Data.base (.intV 7)] :=
  top_to_bottom_fused _ 0 _ _ [Data.base (.intV 7)] rfl rfl rfl rfl

/-- Subterms of an expression's inputs are subterms of the
expression. -/
theorem mem_subterms_of_inputs {e : Expr} {ins : List Expr}
    (hio : e.inputsOpt = some ins) {x : Expr} (hx : x ∈ ins) {s : Expr}
    (hs : s ∈ x.subterms) : s ∈ e.subterms := by
  cases e with
  | node t xs =>
    rw [Expr.inputsOpt] at hio
    cases hio
    rw [Expr.subterms]
    exact List.mem_cons_of_mem _ (mem_subtermsList hx hs)
  | union xs =>
    rw [Expr.inputsOpt] at hio
    cases hio
    rw [Expr.subterms]
    exact List.mem_cons_of_mem _ (mem_subtermsList hx hs)
  | symbol n d =>
    rw [Expr.inputsOpt] at hio
    cases hio
    cases hx
  | dataExpr n d v =>
    rw [Expr.inputsOpt] at hio
    cases hio
    cases hx
  | lit v => rw [Expr.inputsOpt] at hio; cases hio
  | seq b xs => rw [Expr.inputsOpt] at hio; cases hio

/-- C1: when the `compute_down` probe fails on every node of the
expression not already bound in the scope, the fused top-down strategy
and the strict bottom-up strategy return the same result for the
(scope, expression) pair. -/
theorem top_to_bottom_eq_bottom_up (R : Rules) (f : Nat) (d : Scope) (e : Expr)
    (h : ∀ s ∈ e.subterms, s.hasLeaves = true → lookupExpr d s = none →
      R.probeDown (s.kindOf :: s.leaves.map (fun l => kindOfOpt (lookupExpr d l))) = false) :
    top_to_bottom R f d e = bottom_up R f d e := by
  induction f generalizing e with
  | zero => rfl
  | succ f ih =>
    rw [top_to_bottom, bottom_up]
    cases hl : lookupExpr d e with
    | some v => rfl
    | none =>
      have hcond : (e.hasLeaves && R.probeDown
          (e.kindOf :: e.leaves.map (fun l => kindOfOpt (lookupExpr d l)))) = false := by
        cases hhl : e.hasLeaves with
        | false => rfl
        | true => simp [h e (self_mem_subterms e) hhl hl]
      rw [hcond]
      simp only [Bool.false_eq_true, if_false]
      have hmap : (match e.inputsOpt with
          | some ins => ins.mapM (top_to_bottom R f d)
          | none => Except.ok []) =
          (match e.inputsOpt with
          | some ins => ins.mapM (bottom_up R f d)
          | none => Except.ok []) := by
        cases hio : e.inputsOpt with
        | none => rfl
        | some ins =>
          exact mapM_congr_except ins (fun x hx =>
            ih x (fun s hs hsl hsn => h s (mem_subterms_of_inputs hio hx hs) hsl hsn))
      rw [hmap]

/-- Witness for C1: with an empty registry (probe never succeeds),
both strategies agree on a one-node chain over a bound symbol. -/
theorem top_to_bottom_eq_bottom_up_witness :
    (∀ s ∈ (Expr.node 0 [Expr.symbol "t" "var * int"]).subterms,
      s.hasLeaves = true →
      lookupExpr [(Expr.symbol "t" "var * int", Data.base (.intV 7))] s = none →
      defaultRules.probeDown (s.kindOf :: s.leaves.map
        (fun l => kindOfOpt
          (lookupExpr [(Expr.symbol "t" "var * int", Data.base (.intV 7))] l))) = false) ∧
    top_to_bottom defaultRules 3 [(Expr.symbol "t" "var * int", Data.base (.intV 7))]
        (Expr.node 0 [Expr.symbol "t" "var * int"]) =
      bottom_up defaultRules 3 [(Expr.symbol "t" "var * int", Data.base (.intV 7))]
        (Expr.node 0 [Expr.symbol "t" "var * int"]) :=
  ⟨fun _ _ _ _ => rfl,
    top_to_bottom_eq_bottom_up defaultRules 3 _ _ (fun _ _ _ _ => rfl)⟩

/-- C10: the default `compute_up` rule for a literal list or tuple
rebuilds a container of the same kind from the results of evaluating
each element through `compute` against the scope, in order. -/
theorem compute_up_container (R : Rules) (f : Nat) (d : Scope) (b : Bool)
    (items : List Expr)
    (h : R.upExtra (.seq b items) [] (some d) = none) :
    compute_up R (f + 2) d (.seq b items) [] =
      (items.mapM (compute R f d)).map
        (fun vs => if b then Data.tupleD vs else Data.listD vs) := by
  have h1 : compute_up R (f + 2) d (.seq b items) [] =
      compute_up_default R (f + 1) d (.seq b items) [] := by
    rw [compute_up, h]
  rw [h1, compute_up_default]
  cases hm : items.mapM (compute R f d) with
  | ok vs => simp [Except.map]
  | error err => simp [Except.map]

/-- Witness for C10: a two-element literal list of scalars evaluates
elementwise to a list of the same scalars. -/
theorem compute_up_container_witness :
    defaultRules.upExtra (Expr.seq false [Expr.lit (.intV 1), Expr.lit (.intV 2)]) []
        (some []) = none ∧
    compute_up defaultRules 5 [] (Expr.seq false [Expr.lit (.intV 1), Expr.lit (.intV 2)]) [] =
      (([Expr.lit (.intV 1), Expr.lit (.intV 2)].mapM (compute defaultRules 3 [])).map
        (fun vs => if false then Data.tupleD vs else Data.listD vs)) :=
  ⟨rfl, compute_up_container defaultRules 3 [] false _ rfl⟩

/-- C7: the scope binder is idempotent — applied to its own output it
returns that same expression and scope; in particular, an expression
with no resource-bound leaves passes through unchanged with its
scope. -/
theorem swap_resources_idempotent (e : Expr) (scope : Scope) :
    swap_resources_into_scope (swap_resources_into_scope e scope).1
        (swap_resources_into_scope e scope).2 = swap_resources_into_scope e scope ∧
    (e.resources = [] → swap_resources_into_scope e scope = (e, scope)) := by
  have hpass : ∀ (e2 : Expr) (s2 : Scope), e2.resources = [] →
      swap_resources_into_scope e2 s2 = (e2, s2) := by
    intro e2 s2 hr
    have hd : swap_resources_into_scope e2 s2 =
        (e2.subs ((e2.resources).map (fun tv => (tv.1, freshSymbol tv.1))),
          mergeScope ((e2.resources).map (fun tv => (freshSymbol tv.1, tv.2))) s2) := rfl
    rw [hd, hr, List.map_nil, List.map_nil, subs_nil, mergeScope_nil]
  constructor
  · have h1 : (swap_resources_into_scope e scope).1 =
        e.subs ((e.resources).map (fun tv => (tv.1, freshSymbol tv.1))) := rfl
    have hres : (e.subs ((e.resources).map (fun tv => (tv.1, freshSymbol tv.1)))).resources
        = [] := by
      refine resources_subs _ ?_ e ?_
      · intro p hp
        obtain ⟨tv, htv, hptv⟩ := List.mem_map.mp hp
        obtain ⟨n, dd, v, htv2⟩ := resources_key_shape e tv htv
        rw [← hptv, htv2]
        rfl
      · intro r hr
        exact lookupExpr_map_key (fun tv => freshSymbol tv.1) e.resources r hr
    rw [h1, hpass _ _ hres, ← h1]
  · exact hpass e scope

/-- Witness for C7: a bare interactive leaf is normalized once and the
second application changes nothing; a plain symbol passes through
unchanged. -/
theorem swap_resources_idempotent_witness :
    swap_resources_into_scope
        (swap_resources_into_scope (Expr.dataExpr "t" "3 * int" (Data.base (.intV 9))) []).1
        (swap_resources_into_scope (Expr.dataExpr "t" "3 * int" (Data.base (.intV 9))) []).2 =
      swap_resources_into_scope (Expr.dataExpr "t" "3 * int" (Data.base (.intV 9))) [] ∧
    swap_resources_into_scope (Expr.symbol "t" "int") [] = (Expr.symbol "t" "int", []) :=
  ⟨(swap_resources_idempotent _ _).1, (swap_resources_idempotent _ _).2 rfl⟩

/-- C3: an `optimize` implementation that reports not-supported never
aborts `compute` — the pipeline silently continues with the
pre-optimization expression and the final result equals the result of
the same pipeline with optimization skipped entirely; and this is the
only recovered condition — any other failure raised by the optimize
call aborts `compute` with that error. -/
theorem compute_optimize_recovery :
    (∀ (R : Rules) (f : Nat) (d : Scope) (e : Expr),
      (∀ e2 vs, ∃ m, R.optimize e2 vs = .error (.notImplemented m)) →
      compute R f d e = compute (skipOpt R) f d e) ∧
    (∀ (R : Rules) (f : Nat) (d : Scope) (e e3 : Expr) (err : Err),
      R.pre_compute (swap_resources_into_scope e d).1
        (swap_resources_into_scope e d).2 = .ok e3 →
      R.optimize e3 (optimizeArgs (swap_resources_into_scope e d).2 e3) = .error err →
      (∀ m, err ≠ .notImplemented m) →
      compute R (f + 1) d e = .error err) := by
  constructor
  · intro R f d e hopt
    refine ((eval_congr R (skipOpt R) rfl rfl rfl rfl rfl ?_ f).2.2.2) d e
    intro e2 vs
    obtain ⟨m, hm⟩ := hopt e2 vs
    show (match R.optimize e2 vs with
          | .ok e4 => Except.ok e4
          | .error err =>
            match err with
            | .notImplemented _ => Except.ok e2
            | err2 => Except.error err2) = optStep (skipOpt R) e2 vs
    rw [hm]
    rfl
  · intro R f d e e3 err hpre hoptc hne
    have h1 : optStep R e3 (optimizeArgs (swap_resources_into_scope e d).2 e3) =
        .error err := by
      show (match R.optimize e3 (optimizeArgs (swap_resources_into_scope e d).2 e3) with
            | .ok e4 => Except.ok e4
            | .error err =>
              match err with
              | .notImplemented _ => Except.ok e3
              | err2 => Except.error err2) = Except.error err
      rw [hoptc]
      cases err with
      | notImplemented m => exact absurd rfl (hne m)
      | keyError => rfl
      | indexError => rfl
      | valueError m => rfl
      | fuel => rfl
    rw [compute]
    cases hpc : R.pre_compute (swap_resources_into_scope e d).1
        (swap_resources_into_scope e d).2 with
    | error err2 =>
      rw [hpre] at hpc
      exact Except.noConfusion hpc
    | ok e3' =>
      rw [hpre] at hpc
      injection hpc with he3
      subst he3
      dsimp only
      rw [h1]

/-- Witness for C3: an always-not-supported optimize hook is recovered
and agrees with the optimization-free pipeline; a `KeyError` from
optimize aborts the pipeline. -/
theorem compute_optimize_recovery_witness :
    (compute { defaultRules with optimize := fun _ _ => .error (.notImplemented "flaky") }
        3 [] (Expr.lit (.intV 7)) =
      compute
        (skipOpt { defaultRules with optimize := fun _ _ => .error (.notImplemented "flaky") })
        3 [] (Expr.lit (.intV 7))) ∧
    (compute { defaultRules with optimize := fun _ _ => .error .keyError }
        3 [] (Expr.lit (.intV 7)) = .error .keyError) :=
  ⟨compute_optimize_recovery.1 _ 3 [] _ (fun _ _ => ⟨"flaky", rfl⟩),
   compute_optimize_recovery.2 _ 2 [] _ (Expr.lit (.intV 7)) .keyError rfl rfl
     (fun _ h => Err.noConfusion h)⟩

/-- Witness for C5: two distinct symbols in one expression. -/
theorem compute_single_usage_error_witness :
    ∃ msg, compute_single defaultRules 3
        (Expr.node 0 [Expr.symbol "a" "int", Expr.symbol "b" "int"])
        (Data.base (.intV 5)) = .error (.valueError msg) :=
  compute_single_usage_error defaultRules 3 _ _ (by decide)

end Blaze
